import Mathlib

/-!
Shallow embedding of the HFMD dashboard data pipeline
(`data_loader.py`, `hfmd_visualisation.py`, `regional_comparison.py`).

Numeric cells are rationals; a missing cell (pandas `NaN`) is `none`.
Date parsing (`pd.to_datetime(..., errors="coerce")`) is abstracted by
letting a raw row carry `Option Date`: an unparseable date is `none`.
-/

namespace HFMD

/-- Drop leading whitespace characters (one end of Python `strip()`). -/
def dropLeadingWs (l : List Char) : List Char :=
  l.dropWhile (fun c => c.isWhitespace)

/-- Header canonicalization from the source:
`c.strip().lower().replace(" ", "_")`, carried out on the character
list: strip surrounding whitespace, lower-case, then turn each space
into an underscore (the replaced pattern is the single character
`" "`, so the per-character map is exact). -/
def canon (s : String) : String :=
  String.mk
    (((dropLeadingWs ((dropLeadingWs s.data.reverse).reverse)).map
        (fun c => if c = ' ' then '_' else c.toLower)))

/-- The five region columns, in the order declared by the source. -/
def regionCols : List String :=
  ["southern", "northern", "central", "east_coast", "borneo"]

/-- Schema-level failures raised by the loaders. A failure carries the
column names embedded in the exception message. -/
inductive SchemaError where
  | missingDate : SchemaError
  | missingRegions : List String → SchemaError
  | missingWeather : List String → SchemaError
deriving DecidableEq, Repr

/-- Ordered alias lists for the weather concepts (`hfmd_visualisation.py`). -/
def tempAliases : List String := ["temp_c", "temperature_c", "temp_central", "temp_cen"]

def rainAliases : List String := ["rain_c", "rainfall_c", "rain_central", "rain_cen"]

def rhAliases : List String := ["rh_c", "humidity_c", "rh_central", "rh_cen"]

/-- `pick(col_candidates)`: first candidate present among the columns. -/
def pick (cols : List String) (cands : List String) : Option String :=
  cands.find? (fun c => cols.contains c)

/-- The weather-alias resolution step of `hfmd_visualisation.load_monthly`:
resolve each concept by its alias list; if any concept is unresolved,
fail with the list of unresolved concepts by canonical short name
(insertion order of the dict literal: temp_c, rain_c, rh_c). -/
def weatherResolve (cols : List String) :
    Except (List String) (String × String × String) :=
  match pick cols tempAliases, pick cols rainAliases, pick cols rhAliases with
  | some tk, some rk, some hk => Except.ok (tk, rk, hk)
  | t, r, h =>
      Except.error
        ((if t.isNone then ["temp_c"] else []) ++
         (if r.isNone then ["rain_c"] else []) ++
         (if h.isNone then ["rh_c"] else []))

/-- `hfmd_visualisation.load_monthly` region check: the source loops
`for r in regions: if r not in df.columns: raise ...`, so it reports
only the first missing region. -/
def firstMissingRegion (cols : List String) : Option String :=
  regionCols.find? (fun r => !(cols.contains r))

/-- Schema-validation pipeline of `hfmd_visualisation.load_monthly`:
date column check, then per-region loop (first missing raises), then
weather alias resolution. On success returns the resolved weather keys. -/
def hfmdSchemaCheck (rawCols : List String) :
    Except SchemaError (String × String × String) :=
  if (rawCols.map canon).contains "date" then
    match firstMissingRegion (rawCols.map canon) with
    | some r => Except.error (SchemaError.missingRegions [r])
    | none =>
        match weatherResolve (rawCols.map canon) with
        | Except.ok ks => Except.ok ks
        | Except.error ms => Except.error (SchemaError.missingWeather ms)
  else Except.error SchemaError.missingDate

/-- Schema-validation pipeline of `regional_comparison.load_monthly`:
`missing = [c for c in regions if c not in df.columns]`, raising with the
whole list when non-empty. -/
def regionalSchemaCheck (rawCols : List String) : Except SchemaError Unit :=
  if (rawCols.map canon).contains "date" then
    if (regionCols.filter (fun r => !((rawCols.map canon).contains r))).isEmpty
    then Except.ok ()
    else Except.error (SchemaError.missingRegions
      (regionCols.filter (fun r => !((rawCols.map canon).contains r))))
  else Except.error SchemaError.missingDate

/-- A calendar date as produced by `pd.to_datetime` with format dd/mm/yyyy. -/
structure Date where
  year : Nat
  month : Nat
  day : Nat
deriving DecidableEq, Repr

/-- Chronological order on dates (lexicographic year, month, day). -/
def Date.le (a b : Date) : Prop :=
  a.year < b.year ∨
    (a.year = b.year ∧
      (a.month < b.month ∨ (a.month = b.month ∧ a.day ≤ b.day)))

instance (a b : Date) : Decidable (Date.le a b) := by
  unfold Date.le; exact inferInstance

/-- A date is calendar-valid when its month lies in 1..12 (true of every
date `pd.to_datetime` can produce). -/
def Date.valid (d : Date) : Prop := 1 ≤ d.month ∧ d.month ≤ 12

instance (d : Date) : Decidable (Date.valid d) := by
  unfold Date.valid; exact inferInstance

/-- One row of the raw CSV after header canonicalization, with the date
cell already sent through `pd.to_datetime(..., errors="coerce")`
(`none` = NaT) and numeric cells as `Option ℚ` (`none` = NaN). -/
structure RawRow where
  date : Option Date
  southern : Option ℚ
  northern : Option ℚ
  central : Option ℚ
  east_coast : Option ℚ
  borneo : Option ℚ
  temp_c : Option ℚ
  rain_c : Option ℚ
  rh_c : Option ℚ
deriving DecidableEq, Repr

/-- One row of the clean daily table: parsed date plus the derived
`total_cases` column. -/
structure DailyRow where
  date : Date
  southern : Option ℚ
  northern : Option ℚ
  central : Option ℚ
  east_coast : Option ℚ
  borneo : Option ℚ
  temp_c : Option ℚ
  rain_c : Option ℚ
  rh_c : Option ℚ
  total_cases : ℚ
deriving DecidableEq, Repr

/-- Sum of the present cells of a row-slice, as computed by
`df[cols].sum(axis=1, numeric_only=True)`: NaN cells are skipped, an
all-NaN slice sums to 0. -/
def presentSum (l : List (Option ℚ)) : ℚ := (l.filterMap id).sum

/-- `df["total_cases"] = df[regions].sum(axis=1, numeric_only=True)`
applied to one row, plus the copy of every other column. -/
def mkDaily (d : Date) (r : RawRow) : DailyRow :=
  { date := d
    southern := r.southern
    northern := r.northern
    central := r.central
    east_coast := r.east_coast
    borneo := r.borneo
    temp_c := r.temp_c
    rain_c := r.rain_c
    rh_c := r.rh_c
    total_cases :=
      presentSum [r.southern, r.northern, r.central, r.east_coast, r.borneo] }

/-- Insert a row into a date-sorted list, keeping earlier rows first on
equal dates (stable). -/
def insertByDate (x : DailyRow) : List DailyRow → List DailyRow
  | [] => [x]
  | y :: ys =>
      if Date.le x.date y.date then x :: y :: ys else y :: insertByDate x ys

/-- `df.sort_values("date")` modelled as a stable insertion sort. -/
def sortByDate : List DailyRow → List DailyRow
  | [] => []
  | x :: xs => insertByDate x (sortByDate xs)

/-- `data_loader.load_daily` after header canonicalization: parse dates
(already reflected in `RawRow.date`), drop rows whose date failed to
parse, sort by date, derive `total_cases`. No deduplication is performed
by the source. -/
def load_daily (raw : List RawRow) : List DailyRow :=
  sortByDate (raw.filterMap (fun r => r.date.map (fun d => mkDaily d r)))

/-- The month bin a date falls into, counted in months since year 0
(pandas `resample("M")` bins by calendar month). -/
def monthIndex (d : Date) : Nat := d.year * 12 + (d.month - 1)

/-- Mean of a list of values; `none` when the list is empty (pandas
`mean` of an empty group is NaN). -/
def omean (l : List ℚ) : Option ℚ :=
  if l.isEmpty then none else some (l.sum / l.length)

/-- One row of the monthly table: `Year`, `Month`, and the per-column
monthly means (`none` = NaN). -/
structure MonthlyRow where
  year : Nat
  month : Nat
  total_cases : Option ℚ
  southern : Option ℚ
  northern : Option ℚ
  central : Option ℚ
  east_coast : Option ℚ
  borneo : Option ℚ
  temp_c : Option ℚ
  rain_c : Option ℚ
  rh_c : Option ℚ
deriving DecidableEq, Repr

/-- Monthly mean of one `Option`-valued column over a group of daily
rows: NaN cells are skipped (pandas `mean` has `skipna=True`), and an
all-NaN or empty group yields NaN. -/
def colMean (g : List DailyRow) (f : DailyRow → Option ℚ) : Option ℚ :=
  omean (g.filterMap f)

/-- The daily rows falling in month bin `mi`. -/
def monthGroup (daily : List DailyRow) (mi : Nat) : List DailyRow :=
  daily.filter (fun r => decide (monthIndex r.date = mi))

/-- The monthly record for bin `mi` produced by
`resample("M").mean(numeric_only=True)` in `data_loader.load_monthly`,
with `Year`/`Month` extracted from the bin label. -/
def mkMonthly (daily : List DailyRow) (mi : Nat) : MonthlyRow :=
  let g := monthGroup daily mi
  { year := mi / 12
    month := mi % 12 + 1
    total_cases := omean (g.map (fun r => r.total_cases))
    southern := colMean g (fun r => r.southern)
    northern := colMean g (fun r => r.northern)
    central := colMean g (fun r => r.central)
    east_coast := colMean g (fun r => r.east_coast)
    borneo := colMean g (fun r => r.borneo)
    temp_c := colMean g (fun r => r.temp_c)
    rain_c := colMean g (fun r => r.rain_c)
    rh_c := colMean g (fun r => r.rh_c) }

/-- The month bins generated by `resample("M")`: every calendar month
from the earliest to the latest observed date, inclusive — months with
no observations included. -/
def monthRange (daily : List DailyRow) : List Nat :=
  match daily.map (fun r => monthIndex r.date) with
  | [] => []
  | m :: ms =>
      let lo := ms.foldl Nat.min m
      let hi := ms.foldl Nat.max m
      (List.range (hi + 1 - lo)).map (fun i => lo + i)

/-- `data_loader.load_monthly`: clean the daily table, resample to
month-end bins, take the mean of every numeric column per bin. -/
def load_monthly (raw : List RawRow) : List MonthlyRow :=
  (monthRange (load_daily raw)).map (mkMonthly (load_daily raw))

/-- Sum of the present entries of a list of optional values, as
`m[regions].sum(axis=1, numeric_only=True)` does per monthly row: NaN
skipped, all-NaN row sums to 0. -/
def osum (l : List (Option ℚ)) : ℚ := (l.filterMap id).sum

/-- The monthly record for bin `mi` produced by
`regional_comparison.load_monthly`: per-column means first, then
`total_cases` as the sum of the five per-region monthly means. -/
def regionalMkMonthly (daily : List DailyRow) (mi : Nat) : MonthlyRow :=
  let g := monthGroup daily mi
  let s := colMean g (fun r => r.southern)
  let n := colMean g (fun r => r.northern)
  let c := colMean g (fun r => r.central)
  let e := colMean g (fun r => r.east_coast)
  let b := colMean g (fun r => r.borneo)
  { year := mi / 12
    month := mi % 12 + 1
    total_cases := some (osum [s, n, c, e, b])
    southern := s
    northern := n
    central := c
    east_coast := e
    borneo := b
    temp_c := colMean g (fun r => r.temp_c)
    rain_c := colMean g (fun r => r.rain_c)
    rh_c := colMean g (fun r => r.rh_c) }

/-- `regional_comparison.load_monthly`: same daily cleaning and monthly
resampling as `data_loader.load_monthly`, but `total_cases` is derived
after aggregation as the sum of the five per-region monthly means. -/
def regional_load_monthly (raw : List RawRow) : List MonthlyRow :=
  (monthRange (load_daily raw)).map (regionalMkMonthly (load_daily raw))

/-- A defined Pearson correlation, represented exactly: the coefficient
is `num / Real.sqrt den2` with `den2 > 0` for every value the pipeline
constructs, so `num * num / den2` is its squared absolute value. -/
structure CorrVal where
  num : ℚ
  den2 : ℚ
deriving DecidableEq, Repr

/-- Squared absolute value of a represented correlation. -/
def CorrVal.absSq (c : CorrVal) : ℚ := c.num * c.num / c.den2

/-- Numerator of the Pearson coefficient over paired observations:
`n * Σxy - Σx * Σy`. -/
def pearsonNum (s : List (ℚ × ℚ)) : ℚ :=
  (s.length : ℚ) * (s.map (fun p => p.1 * p.2)).sum -
    (s.map (fun p => p.1)).sum * (s.map (fun p => p.2)).sum

/-- Scaled variance of the first coordinate: `n * Σx² - (Σx)²`. -/
def pearsonDenX (s : List (ℚ × ℚ)) : ℚ :=
  (s.length : ℚ) * (s.map (fun p => p.1 * p.1)).sum -
    (s.map (fun p => p.1)).sum * (s.map (fun p => p.1)).sum

/-- Scaled variance of the second coordinate: `n * Σy² - (Σy)²`. -/
def pearsonDenY (s : List (ℚ × ℚ)) : ℚ :=
  (s.length : ℚ) * (s.map (fun p => p.2 * p.2)).sum -
    (s.map (fun p => p.2)).sum * (s.map (fun p => p.2)).sum

/-- The Pearson coefficient `pandas.DataFrame.corr` computes over paired
observations: NaN (here `none`) when either series has zero variance,
else the coefficient `pearsonNum / sqrt (pearsonDenX * pearsonDenY)`. -/
def pearsonOf (s : List (ℚ × ℚ)) : Option CorrVal :=
  if pearsonDenX s * pearsonDenY s = 0 then none
  else some { num := pearsonNum s, den2 := pearsonDenX s * pearsonDenY s }

/-- The rows of the monthly table where both selected columns are
non-missing (`df_m[[a, b]].dropna()`). -/
def pairsOf (tbl : List MonthlyRow) (a b : MonthlyRow → Option ℚ) :
    List (ℚ × ℚ) :=
  tbl.filterMap (fun r =>
    match a r, b r with
    | some x, some y => some (x, y)
    | _, _ => none)

/-- `safe_corr(a, b)` from `hfmd_visualisation.py`: drop rows with a
missing value, return the Pearson coefficient when more than 2 paired
observations remain, NaN otherwise. -/
def safe_corr (tbl : List MonthlyRow) (a b : MonthlyRow → Option ℚ) :
    Option CorrVal :=
  let s := pairsOf tbl a b
  if 2 < s.length then pearsonOf s else none

/-- The selection key of the source, `abs(x[1]) if not isnan(x[1]) else -1`,
compared: `keyLtB a b` holds when the key of `a` is smaller than the key
of `b`. For defined values with positive `den2` this is exactly
comparison of absolute correlation values (cross-multiplied squares);
an undefined correlation (key -1) is below every defined one. -/
def keyLtB (a b : Option CorrVal) : Bool :=
  match a, b with
  | none, none => false
  | none, some _ => true
  | some _, none => false
  | some x, some y => decide (x.num * x.num * y.den2 < y.num * y.num * x.den2)

/-- `strongest` from `hfmd_visualisation.py`:
`max([("Temperature", ct), ("Rainfall", cr), ("Humidity", ch)], key=...)`.
Python `max` scans left to right and replaces the current best only on a
strictly greater key, so earlier-declared entries win ties. -/
def strongest (ct cr ch : Option CorrVal) : String :=
  let c1 : String × Option CorrVal :=
    if keyLtB ct cr then ("Rainfall", cr) else ("Temperature", ct)
  if keyLtB c1.2 ch then "Humidity" else c1.1

/-- The key actually compared by the source, as a rational: squared
absolute correlation for a defined value, -1 for NaN. (For keys in
[0, 1] squared absolute values order the same way as absolute values.) -/
def keyQ (o : Option CorrVal) : ℚ :=
  match o with
  | none => -1
  | some c => c.absSq

/-! ### Order lemmas for the date sort -/

theorem dateLe_refl (a : Date) : Date.le a a := by unfold Date.le; omega

theorem dateLe_total (a b : Date) : Date.le a b ∨ Date.le b a := by
  unfold Date.le; omega

theorem dateLe_trans {a b c : Date} (h1 : Date.le a b) (h2 : Date.le b c) :
    Date.le a c := by
  unfold Date.le at *; omega

/-- Row-level date order. -/
def leD (a b : DailyRow) : Prop := Date.le a.date b.date

theorem insertByDate_perm (x : DailyRow) (l : List DailyRow) :
    (insertByDate x l).Perm (x :: l) := by
  induction l with
  | nil => simp [insertByDate]
  | cons y ys ih =>
      by_cases h : Date.le x.date y.date
      · simp [insertByDate, h]
      · simp only [insertByDate, if_neg h]
        exact (ih.cons y).trans (List.Perm.swap x y ys)

theorem sortByDate_perm (l : List DailyRow) : (sortByDate l).Perm l := by
  induction l with
  | nil => simp [sortByDate]
  | cons x xs ih =>
      exact (insertByDate_perm x (sortByDate xs)).trans (ih.cons x)

theorem mem_sortByDate {x : DailyRow} {l : List DailyRow} :
    x ∈ sortByDate l ↔ x ∈ l :=
  (sortByDate_perm l).mem_iff

theorem pairwise_insertByDate {x : DailyRow} {l : List DailyRow}
    (h : l.Pairwise leD) : (insertByDate x l).Pairwise leD := by
  induction l with
  | nil => simp [insertByDate, leD]
  | cons y ys ih =>
      obtain ⟨hy, hys⟩ := List.pairwise_cons.mp h
      by_cases hxy : Date.le x.date y.date
      · simp only [insertByDate, if_pos hxy]
        refine List.pairwise_cons.mpr ⟨?_, h⟩
        intro z hz
        rcases List.mem_cons.mp hz with rfl | hz
        · exact hxy
        · exact dateLe_trans hxy (hy z hz)
      · simp only [insertByDate, if_neg hxy]
        refine List.pairwise_cons.mpr ⟨?_, ih hys⟩
        intro z hz
        rcases List.mem_cons.mp ((insertByDate_perm x ys).mem_iff.mp hz) with hzx | hz
        · rw [hzx]
          exact (dateLe_total x.date y.date).resolve_left hxy
        · exact hy z hz

theorem pairwise_sortByDate (l : List DailyRow) :
    (sortByDate l).Pairwise leD := by
  induction l with
  | nil => simp [sortByDate]
  | cons x xs ih => exact pairwise_insertByDate ih

theorem sortByDate_eq_of_pairwise {l : List DailyRow}
    (h : l.Pairwise leD) : sortByDate l = l := by
  induction l with
  | nil => rfl
  | cons x xs ih =>
      obtain ⟨hx, hxs⟩ := List.pairwise_cons.mp h
      show insertByDate x (sortByDate xs) = x :: xs
      rw [ih hxs]
      cases xs with
      | nil => rfl
      | cons y ys =>
          have hxy : Date.le x.date y.date := hx y (List.mem_cons_self y ys)
          simp [insertByDate, hxy]

/-! ### Membership in the clean daily table -/

theorem mem_load_daily {raw : List RawRow} {r : DailyRow}
    (h : r ∈ load_daily raw) :
    ∃ r0 ∈ raw, ∃ d, r0.date = some d ∧ r = mkDaily d r0 := by
  unfold load_daily at h
  rw [mem_sortByDate, List.mem_filterMap] at h
  obtain ⟨a, ha, hfa⟩ := h
  rw [Option.map_eq_some'] at hfa
  obtain ⟨d, hd, hmk⟩ := hfa
  exact ⟨a, ha, d, hd, hmk.symm⟩

/-- Every row of the clean daily table carries as `total_cases` the sum
of its own present region cells. -/
theorem total_cases_eq {raw : List RawRow} {r : DailyRow}
    (h : r ∈ load_daily raw) :
    r.total_cases =
      presentSum [r.southern, r.northern, r.central, r.east_coast, r.borneo] := by
  obtain ⟨r0, -, d, -, rfl⟩ := mem_load_daily h
  rfl

/-! ### Bounds for the folded min/max of the month range -/

theorem foldl_min_le_init (l : List Nat) (m : Nat) : l.foldl Nat.min m ≤ m := by
  induction l generalizing m with
  | nil => exact Nat.le_refl m
  | cons b bs ih =>
      exact Nat.le_trans (ih (Nat.min m b)) (Nat.min_le_left m b)

theorem foldl_min_le_mem {l : List Nat} {x : Nat} (m : Nat) (h : x ∈ l) :
    l.foldl Nat.min m ≤ x := by
  induction l generalizing m with
  | nil => cases h
  | cons b bs ih =>
      rcases List.mem_cons.mp h with rfl | h
      · exact Nat.le_trans (foldl_min_le_init bs (Nat.min m x)) (Nat.min_le_right m x)
      · exact ih (Nat.min m b) h

theorem init_le_foldl_max (l : List Nat) (m : Nat) : m ≤ l.foldl Nat.max m := by
  induction l generalizing m with
  | nil => exact Nat.le_refl m
  | cons b bs ih =>
      exact Nat.le_trans (Nat.le_max_left m b) (ih (Nat.max m b))

theorem mem_le_foldl_max {l : List Nat} {x : Nat} (m : Nat) (h : x ∈ l) :
    x ≤ l.foldl Nat.max m := by
  induction l generalizing m with
  | nil => cases h
  | cons b bs ih =>
      rcases List.mem_cons.mp h with rfl | h
      · exact Nat.le_trans (Nat.le_max_right m x) (init_le_foldl_max bs (Nat.max m x))
      · exact ih (Nat.max m b) h

/-- The month bin of every daily row lies in the generated month range. -/
theorem monthIndex_mem_monthRange {daily : List DailyRow} {r : DailyRow}
    (h : r ∈ daily) : monthIndex r.date ∈ monthRange daily := by
  unfold monthRange
  cases hmap : daily.map (fun r => monthIndex r.date) with
  | nil =>
      rw [List.map_eq_nil_iff] at hmap
      subst hmap
      cases h
  | cons m ms =>
      have hx : monthIndex r.date ∈ m :: ms := by
        rw [← hmap]
        exact List.mem_map_of_mem _ h
      have h1 : ms.foldl Nat.min m ≤ monthIndex r.date := by
        rcases List.mem_cons.mp hx with hm | hm
        · rw [hm]; exact foldl_min_le_init ms m
        · exact foldl_min_le_mem m hm
      have h2 : monthIndex r.date ≤ ms.foldl Nat.max m := by
        rcases List.mem_cons.mp hx with hm | hm
        · rw [hm]; exact init_le_foldl_max ms m
        · exact mem_le_foldl_max m hm
      rw [List.mem_map]
      refine ⟨monthIndex r.date - ms.foldl Nat.min m, ?_, by omega⟩
      rw [List.mem_range]
      omega

/-- The bin label written into a monthly record recovers the bin. -/
theorem mkMonthly_label (daily : List DailyRow) (mi : Nat) :
    (mkMonthly daily mi).year * 12 + ((mkMonthly daily mi).month - 1) = mi := by
  show (mi / 12) * 12 + (mi % 12 + 1 - 1) = mi
  omega

theorem regionalMkMonthly_label (daily : List DailyRow) (mi : Nat) :
    (regionalMkMonthly daily mi).year * 12 +
      ((regionalMkMonthly daily mi).month - 1) = mi := by
  show (mi / 12) * 12 + (mi % 12 + 1 - 1) = mi
  omega

/-- Distributing a list sum over a pointwise rational addition. -/
theorem sum_map_add (l : List DailyRow) (f g : DailyRow → ℚ) :
    (l.map (fun x => f x + g x)).sum = (l.map f).sum + (l.map g).sum := by
  induction l with
  | nil => simp
  | cons x xs ih => simp [ih]; ring

/-- `find?` returns the head of the corresponding `filter`. -/
theorem find?_eq_head_filter {α : Type} {p : α → Bool} {l : List α} {m : α}
    {ms : List α} (h : l.filter p = m :: ms) : l.find? p = some m := by
  induction l with
  | nil => cases h
  | cons a as ih =>
      by_cases hp : p a
      · rw [List.filter_cons_of_pos hp] at h
        rw [List.find?_cons_of_pos _ hp]
        exact congrArg some (List.head_eq_of_cons_eq h)
      · rw [List.filter_cons_of_neg hp] at h
        rw [List.find?_cons_of_neg _ hp]
        exact ih h

/-- The first candidate alias present among the columns is the one
`pick` binds. -/
theorem pick_first (cols : List String) (l1 l2 : List String) (c : String)
    (hc : cols.contains c = true)
    (hl1 : ∀ x ∈ l1, cols.contains x = false) :
    pick cols (l1 ++ c :: l2) = some c := by
  unfold pick
  induction l1 with
  | nil => rw [List.nil_append, List.find?_cons_of_pos _ hc]
  | cons a as ih =>
      rw [List.cons_append,
        List.find?_cons_of_neg _ (by
          have h := hl1 a (List.mem_cons_self a as)
          simp at h ⊢
          exact h)]
      exact ih (fun x hx => hl1 x (List.mem_cons_of_mem a hx))

/-! ### Concrete inputs used by witnesses and counterexamples -/

/-- A raw row dated 5 Jan 2020. -/
def exDup1 : RawRow :=
  { date := some ⟨2020, 1, 5⟩, southern := some 10, northern := some 0,
    central := some 0, east_coast := some 0, borneo := some 0,
    temp_c := some 28, rain_c := none, rh_c := none }

/-- A second raw row with the same date and a different count. -/
def exDup2 : RawRow := { exDup1 with southern := some 20 }

/-! ### C1 — deduplication of dates -/

/-- C1 (counterexample). The claim says the clean daily table has at
most one row per date. Feeding two raw rows that share the date
5 Jan 2020 through `load_daily` yields two rows with that date: the
source never deduplicates. -/
theorem C1_counterexample :
    ((load_daily [exDup1, exDup2]).countP
      (fun r => decide (r.date = ⟨2020, 1, 5⟩))) = 2 := by decide

/-- C1 (amended). `load_daily` performs no deduplication at all: for
every raw input and every date `d`, the clean table contains exactly as
many rows dated `d` as the raw input has rows whose date parses to `d`
(rows are only dropped for an unparseable date, then sorted). -/
theorem C1_theorem (raw : List RawRow) (d : Date) :
    (load_daily raw).countP (fun r => decide (r.date = d)) =
      raw.countP (fun r => decide (r.date = some d)) := by
  unfold load_daily
  rw [List.Perm.countP_eq _ (sortByDate_perm _)]
  induction raw with
  | nil => rfl
  | cons a as ih =>
      rw [List.filterMap_cons]
      cases ha : a.date with
      | none =>
          simp only [Option.map_none']
          rw [ih, List.countP_cons]
          simp [ha]
      | some d0 =>
          simp only [Option.map_some']
          rw [List.countP_cons, List.countP_cons, ih]
          by_cases hd : d0 = d
          · simp [mkDaily, ha, hd]
          · simp [mkDaily, ha, hd]

/-- C1 (witness for the amended theorem): at the duplicate-date input
both counts evaluate to 2. -/
theorem C1_witness :
    (load_daily [exDup1, exDup2]).countP
        (fun r => decide (r.date = ⟨2020, 1, 5⟩)) =
      [exDup1, exDup2].countP (fun r => decide (r.date = some ⟨2020, 1, 5⟩)) :=
  C1_theorem [exDup1, exDup2] ⟨2020, 1, 5⟩

/-! ### C3 — missing-region error completeness -/

/-- C3 (counterexample). The claim says the error names every missing
region. On an input missing both `southern` and `borneo`,
`hfmd_visualisation.load_monthly` raises at the first absent region of
its loop: the message names only `southern`, and `borneo` — missing as
well — is not named. -/
theorem C3_counterexample :
    (["Date", "Northern", "Central", "East Coast"].map canon).contains "borneo"
        = false ∧
    hfmdSchemaCheck ["Date", "Northern", "Central", "East Coast"] =
      Except.error (SchemaError.missingRegions ["southern"]) ∧
    ¬ "borneo" ∈ ["southern"] := by
  refine ⟨by decide, rfl, by decide⟩

/-- C3 (amended). When at least one region column is absent,
`regional_comparison.load_monthly` fails naming every missing region in
declaration order, while `hfmd_visualisation.load_monthly` fails naming
only the first missing region; when a single region is missing (the
borneo scenario) the two coincide and that region is named. -/
theorem C3_theorem (rawCols : List String) (m : String) (ms : List String)
    (hdate : ((rawCols.map canon).contains "date") = true)
    (hmiss : regionCols.filter (fun r => !((rawCols.map canon).contains r))
      = m :: ms) :
    regionalSchemaCheck rawCols =
        Except.error (SchemaError.missingRegions (m :: ms)) ∧
    hfmdSchemaCheck rawCols =
        Except.error (SchemaError.missingRegions [m]) := by
  constructor
  · unfold regionalSchemaCheck
    rw [if_pos hdate, hmiss]
    rfl
  · have hfind : firstMissingRegion (rawCols.map canon) = some m :=
      find?_eq_head_filter hmiss
    unfold hfmdSchemaCheck
    rw [if_pos hdate, hfind]

/-- C3 (witness): an input lacking only `borneo` makes both loaders
fail with an error naming exactly `borneo`. -/
theorem C3_witness :
    regionalSchemaCheck ["Date", "Southern", "Northern", "Central", "East Coast"]
        = Except.error (SchemaError.missingRegions ["borneo"]) ∧
    hfmdSchemaCheck ["Date", "Southern", "Northern", "Central", "East Coast"]
        = Except.error (SchemaError.missingRegions ["borneo"]) :=
  C3_theorem ["Date", "Southern", "Northern", "Central", "East Coast"]
    "borneo" [] (by decide) (by decide)

/-- When at least one weather concept is unresolved, `weatherResolve`
errors with exactly the unresolved canonical short names, in dict
insertion order. -/
theorem weatherResolve_error (cols : List String)
    (hun : (pick cols tempAliases).isNone ∨ (pick cols rainAliases).isNone ∨
      (pick cols rhAliases).isNone) :
    weatherResolve cols = Except.error
      ((if (pick cols tempAliases).isNone then ["temp_c"] else []) ++
       (if (pick cols rainAliases).isNone then ["rain_c"] else []) ++
       (if (pick cols rhAliases).isNone then ["rh_c"] else [])) := by
  unfold weatherResolve
  cases ht : pick cols tempAliases <;> cases hr : pick cols rainAliases <;>
    cases hh : pick cols rhAliases <;> simp_all

/-! ### C8 — weather alias resolution -/

/-- C8 (confirmed). First part: each weather concept binds to the first
of its ordered aliases present among the columns. Second part: if the
date and region checks pass and at least one concept has no alias
present, `hfmd_visualisation.load_monthly` fails with an error whose
message lists every unresolved concept by its canonical short name
(`temp_c`, `rain_c`, `rh_c`) — not just the first. -/
theorem C8_theorem (rawCols : List String)
    (hdate : ((rawCols.map canon).contains "date") = true)
    (hreg : regionCols.filter (fun r => !((rawCols.map canon).contains r)) = []) :
    (∀ l1 c l2, (rawCols.map canon).contains c = true →
      (∀ x ∈ l1, (rawCols.map canon).contains x = false) →
      pick (rawCols.map canon) (l1 ++ c :: l2) = some c) ∧
    ((pick (rawCols.map canon) tempAliases).isNone ∨
        (pick (rawCols.map canon) rainAliases).isNone ∨
        (pick (rawCols.map canon) rhAliases).isNone →
      ∃ ws, hfmdSchemaCheck rawCols =
          Except.error (SchemaError.missingWeather ws) ∧
        ("temp_c" ∈ ws ↔ (pick (rawCols.map canon) tempAliases).isNone) ∧
        ("rain_c" ∈ ws ↔ (pick (rawCols.map canon) rainAliases).isNone) ∧
        ("rh_c" ∈ ws ↔ (pick (rawCols.map canon) rhAliases).isNone)) := by
  have hfind : firstMissingRegion (rawCols.map canon) = none := by
    unfold firstMissingRegion
    rw [List.find?_eq_none]
    intro x hx
    intro hpx
    have : x ∈ regionCols.filter
        (fun r => !((rawCols.map canon).contains r)) :=
      List.mem_filter.mpr ⟨hx, hpx⟩
    rw [hreg] at this
    cases this
  constructor
  · intro l1 c l2 hc hl1
    exact pick_first _ l1 l2 c hc hl1
  · intro hun
    refine ⟨(if (pick (rawCols.map canon) tempAliases).isNone
          then ["temp_c"] else []) ++
        (if (pick (rawCols.map canon) rainAliases).isNone
          then ["rain_c"] else []) ++
        (if (pick (rawCols.map canon) rhAliases).isNone
          then ["rh_c"] else []), ?_, ?_, ?_, ?_⟩
    · unfold hfmdSchemaCheck
      rw [if_pos hdate, hfind, weatherResolve_error _ hun]
    · by_cases hA : (pick (rawCols.map canon) tempAliases).isNone <;>
        by_cases hB : (pick (rawCols.map canon) rainAliases).isNone <;>
          by_cases hC : (pick (rawCols.map canon) rhAliases).isNone <;>
            simp [hA, hB, hC]
    · by_cases hA : (pick (rawCols.map canon) tempAliases).isNone <;>
        by_cases hB : (pick (rawCols.map canon) rainAliases).isNone <;>
          by_cases hC : (pick (rawCols.map canon) rhAliases).isNone <;>
            simp [hA, hB, hC]
    · by_cases hA : (pick (rawCols.map canon) tempAliases).isNone <;>
        by_cases hB : (pick (rawCols.map canon) rainAliases).isNone <;>
          by_cases hC : (pick (rawCols.map canon) rhAliases).isNone <;>
            simp [hA, hB, hC]

/-- C8 (witness): with columns offering `Temp Central` (canonicalizing
to the third temperature alias) and no rainfall or humidity alias, the
loader fails listing `rain_c` and `rh_c`; the temperature concept binds
`temp_central`, the first alias present. -/
theorem C8_witness :
    pick (["Date", "Southern", "Northern", "Central", "East Coast", "Borneo",
        "Temp Central"].map canon) tempAliases = some "temp_central" ∧
    ∃ ws, hfmdSchemaCheck ["Date", "Southern", "Northern", "Central",
        "East Coast", "Borneo", "Temp Central"] =
        Except.error (SchemaError.missingWeather ws) ∧
      ("temp_c" ∈ ws ↔ (pick (["Date", "Southern", "Northern", "Central",
        "East Coast", "Borneo", "Temp Central"].map canon) tempAliases).isNone) ∧
      ("rain_c" ∈ ws ↔ (pick (["Date", "Southern", "Northern", "Central",
        "East Coast", "Borneo", "Temp Central"].map canon) rainAliases).isNone) ∧
      ("rh_c" ∈ ws ↔ (pick (["Date", "Southern", "Northern", "Central",
        "East Coast", "Borneo", "Temp Central"].map canon) rhAliases).isNone) := by
  have h := C8_theorem ["Date", "Southern", "Northern", "Central",
    "East Coast", "Borneo", "Temp Central"] (by decide) (by decide)
  refine ⟨?_, h.2 (by decide)⟩
  exact h.1 ["temp_c", "temperature_c"] "temp_central" ["temp_cen"]
    (by decide) (by decide)

/-! ### C4 — strongest factor selection -/

/-- `keyLtB` compares exactly the source keys: for represented
correlations with positive `den2` it is the order of the rational key
(squared absolute value, or -1 for NaN). -/
theorem keyLtB_iff (a b : Option CorrVal)
    (ha : ∀ c, a = some c → 0 < c.den2) (hb : ∀ c, b = some c → 0 < c.den2) :
    keyLtB a b = true ↔ keyQ a < keyQ b := by
  cases a with
  | none =>
      cases b with
      | none => simp [keyLtB, keyQ]
      | some y =>
          have hy := hb y rfl
          have h0 : (0:ℚ) ≤ y.num * y.num / y.den2 :=
            div_nonneg (mul_self_nonneg y.num) (le_of_lt hy)
          exact iff_of_true rfl
            (show (-1:ℚ) < y.num * y.num / y.den2 by linarith)
  | some x =>
      cases b with
      | none =>
          have hx := ha x rfl
          have h0 : (0:ℚ) ≤ x.num * x.num / x.den2 :=
            div_nonneg (mul_self_nonneg x.num) (le_of_lt hx)
          exact iff_of_false (by simp [keyLtB])
            (not_lt.mpr (show (-1:ℚ) ≤ x.num * x.num / x.den2 by linarith))
      | some y =>
          have hx := ha x rfl
          have hy := hb y rfl
          simp only [keyLtB, keyQ, CorrVal.absSq, decide_eq_true_eq]
          rw [div_lt_div_iff₀ hx hy]

/-- C4 (amended). `strongest` picks, among the defined correlations,
the one with the largest absolute value (compared here through the
rational key `keyQ`, the squared absolute value, which orders absolute
values identically), breaking ties by declaration order — Temperature,
then Rainfall, then Humidity — and an undefined correlation (key -1)
loses to every defined one. However, when all three are undefined the
result is the string `Temperature`, not an undefined value. -/
theorem C4_theorem (ct cr ch : Option CorrVal)
    (hpos : ∀ c : CorrVal, ct = some c ∨ cr = some c ∨ ch = some c →
      0 < c.den2) :
    strongest ct cr ch =
      if keyQ cr ≤ keyQ ct ∧ keyQ ch ≤ keyQ ct then "Temperature"
      else if keyQ ct < keyQ cr ∧ keyQ ch ≤ keyQ cr then "Rainfall"
      else "Humidity" := by
  have hT : ∀ c, ct = some c → 0 < c.den2 := fun c h => hpos c (Or.inl h)
  have hR : ∀ c, cr = some c → 0 < c.den2 :=
    fun c h => hpos c (Or.inr (Or.inl h))
  have hH : ∀ c, ch = some c → 0 < c.den2 :=
    fun c h => hpos c (Or.inr (Or.inr h))
  unfold strongest
  by_cases h1 : keyLtB ct cr = true
  · have k1 : keyQ ct < keyQ cr := (keyLtB_iff ct cr hT hR).mp h1
    rw [if_pos h1]
    show (if keyLtB cr ch = true then "Humidity" else "Rainfall") = _
    by_cases h2 : keyLtB cr ch = true
    · have k2 : keyQ cr < keyQ ch := (keyLtB_iff cr ch hR hH).mp h2
      have h3 : ¬(keyQ cr ≤ keyQ ct ∧ keyQ ch ≤ keyQ ct) :=
        fun hcon => absurd hcon.1 (not_le.mpr k1)
      have h4 : ¬(keyQ ct < keyQ cr ∧ keyQ ch ≤ keyQ cr) :=
        fun hcon => absurd hcon.2 (not_le.mpr k2)
      rw [if_pos h2, if_neg h3, if_neg h4]
    · have k2 : keyQ ch ≤ keyQ cr :=
        not_lt.mp (fun hlt => h2 ((keyLtB_iff cr ch hR hH).mpr hlt))
      have h3 : ¬(keyQ cr ≤ keyQ ct ∧ keyQ ch ≤ keyQ ct) :=
        fun hcon => absurd hcon.1 (not_le.mpr k1)
      rw [if_neg h2, if_neg h3, if_pos ⟨k1, k2⟩]
  · have k1 : keyQ cr ≤ keyQ ct :=
      not_lt.mp (fun hlt => h1 ((keyLtB_iff ct cr hT hR).mpr hlt))
    rw [if_neg h1]
    show (if keyLtB ct ch = true then "Humidity" else "Temperature") = _
    by_cases h2 : keyLtB ct ch = true
    · have k2 : keyQ ct < keyQ ch := (keyLtB_iff ct ch hT hH).mp h2
      have h3 : ¬(keyQ cr ≤ keyQ ct ∧ keyQ ch ≤ keyQ ct) :=
        fun hcon => absurd hcon.2 (not_le.mpr k2)
      have h4 : ¬(keyQ ct < keyQ cr ∧ keyQ ch ≤ keyQ cr) :=
        fun hcon => absurd hcon.1 (not_lt.mpr k1)
      rw [if_pos h2, if_neg h3, if_neg h4]
    · have k2 : keyQ ch ≤ keyQ ct :=
        not_lt.mp (fun hlt => h2 ((keyLtB_iff ct ch hT hH).mpr hlt))
      rw [if_neg h2, if_pos ⟨k1, k2⟩]

/-- C4 (counterexample). The claim says that when all three
correlations are undefined the strongest-factor result is undefined.
The source evaluates `max` with every key equal to -1 and returns the
first entry: the result is the defined string `Temperature`. -/
theorem C4_counterexample : strongest none none none = "Temperature" := rfl

/-- C4 (witness): temperature and rainfall correlations both +0.50
(represented as `1 / sqrt 4`), humidity undefined — the tie resolves to
Temperature, the first-declared factor. -/
theorem C4_witness :
    (∀ c : CorrVal, some ⟨1, 4⟩ = some c ∨ some ⟨1, 4⟩ = some c ∨
        (none : Option CorrVal) = some c → 0 < c.den2) ∧
    strongest (some ⟨1, 4⟩) (some ⟨1, 4⟩) none = "Temperature" := by
  have hpos : ∀ c : CorrVal, some ⟨1, 4⟩ = some c ∨ some ⟨1, 4⟩ = some c ∨
      (none : Option CorrVal) = some c → 0 < c.den2 := by
    intro c hc
    rcases hc with h | h | h
    · injection h with h2
      rw [← h2]
      norm_num
    · injection h with h2
      rw [← h2]
      norm_num
    · cases h
  refine ⟨hpos, ?_⟩
  rw [C4_theorem (some ⟨1, 4⟩) (some ⟨1, 4⟩) none hpos]
  rw [if_pos (by constructor <;> norm_num [keyQ, CorrVal.absSq])]

/-! ### C6 — correlation sentinel -/

/-- C6 (amended). `safe_corr` returns the NaN sentinel — which is not a
real value, in particular not 0, and is returned rather than raised —
whenever fewer than 3 paired non-missing observations exist; with 3 or
more it returns the result of the Pearson computation, which is a
defined coefficient whenever both paired series have nonzero variance,
and the same sentinel when one of them is constant. -/
theorem C6_theorem (tbl : List MonthlyRow) (a b : MonthlyRow → Option ℚ) :
    ((pairsOf tbl a b).length < 3 → safe_corr tbl a b = none) ∧
    (3 ≤ (pairsOf tbl a b).length →
      safe_corr tbl a b = pearsonOf (pairsOf tbl a b)) ∧
    (3 ≤ (pairsOf tbl a b).length →
      pearsonDenX (pairsOf tbl a b) * pearsonDenY (pairsOf tbl a b) ≠ 0 →
      safe_corr tbl a b = some
        { num := pearsonNum (pairsOf tbl a b)
          den2 := pearsonDenX (pairsOf tbl a b) *
            pearsonDenY (pairsOf tbl a b) }) := by
  refine ⟨?_, ?_, ?_⟩
  · intro hlt
    unfold safe_corr
    rw [if_neg (by omega)]
  · intro hge
    unfold safe_corr
    rw [if_pos (by omega)]
  · intro hge hden
    unfold safe_corr
    rw [if_pos (by omega)]
    unfold pearsonOf
    rw [if_neg hden]

/-- A monthly table with 3 rows whose temperature column is constant. -/
def exConstTbl : List MonthlyRow :=
  [{ year := 2020, month := 1, total_cases := some 1, southern := none,
     northern := none, central := none, east_coast := none, borneo := none,
     temp_c := some 25, rain_c := none, rh_c := none },
   { year := 2020, month := 2, total_cases := some 2, southern := none,
     northern := none, central := none, east_coast := none, borneo := none,
     temp_c := some 25, rain_c := none, rh_c := none },
   { year := 2020, month := 3, total_cases := some 3, southern := none,
     northern := none, central := none, east_coast := none, borneo := none,
     temp_c := some 25, rain_c := none, rh_c := none }]

/-- A monthly table with 3 rows of nondegenerate paired data. -/
def exGoodTbl : List MonthlyRow :=
  [{ year := 2020, month := 1, total_cases := some 1, southern := none,
     northern := none, central := none, east_coast := none, borneo := none,
     temp_c := some 1, rain_c := none, rh_c := none },
   { year := 2020, month := 2, total_cases := some 2, southern := none,
     northern := none, central := none, east_coast := none, borneo := none,
     temp_c := some 2, rain_c := none, rh_c := none },
   { year := 2020, month := 3, total_cases := some 3, southern := none,
     northern := none, central := none, east_coast := none, borneo := none,
     temp_c := some 3, rain_c := none, rh_c := none }]

/-- C6 (counterexample). The claim says a computed Pearson coefficient
is returned whenever 3 or more paired observations exist. With 3 paired
observations whose temperature series is constant, the Pearson variance
term is 0 and the source returns NaN — the undefined sentinel — not a
computed coefficient. -/
theorem C6_counterexample :
    (pairsOf exConstTbl (fun r => r.temp_c) (fun r => r.total_cases)).length
        = 3 ∧
    safe_corr exConstTbl (fun r => r.temp_c) (fun r => r.total_cases)
        = none := by
  refine ⟨by decide, ?_⟩
  norm_num [safe_corr, pairsOf, exConstTbl, pearsonOf, pearsonDenX,
    pearsonDenY, pearsonNum, List.filterMap_cons]

/-- C6 (witness): an empty table gives the sentinel (0 < 3 pairs);
a 3-row nondegenerate table gives a defined coefficient. -/
theorem C6_witness :
    safe_corr ([] : List MonthlyRow) (fun r => r.temp_c)
        (fun r => r.total_cases) = none ∧
    safe_corr exGoodTbl (fun r => r.temp_c) (fun r => r.total_cases) =
      some { num := pearsonNum (pairsOf exGoodTbl (fun r => r.temp_c)
                (fun r => r.total_cases))
             den2 := pearsonDenX (pairsOf exGoodTbl (fun r => r.temp_c)
                  (fun r => r.total_cases)) *
                pearsonDenY (pairsOf exGoodTbl (fun r => r.temp_c)
                  (fun r => r.total_cases)) } := by
  constructor
  · exact (C6_theorem [] (fun r => r.temp_c) (fun r => r.total_cases)).1
      (by decide)
  · exact (C6_theorem exGoodTbl (fun r => r.temp_c)
        (fun r => r.total_cases)).2.2 (by decide)
      (by norm_num [pairsOf, exGoodTbl, pearsonDenX, pearsonDenY,
        List.filterMap_cons])

/-! ### C5 — monthly aggregate is a mean, C7, C9 -/

theorem mkMonthly_total (daily : List DailyRow) (mi : Nat) :
    (mkMonthly daily mi).total_cases =
      omean ((monthGroup daily mi).map (fun r => r.total_cases)) := rfl

theorem mem_load_monthly {raw : List RawRow} {mr : MonthlyRow}
    (h : mr ∈ load_monthly raw) :
    ∃ mi ∈ monthRange (load_daily raw), mr = mkMonthly (load_daily raw) mi := by
  unfold load_monthly at h
  rw [List.mem_map] at h
  obtain ⟨mi, hmi, hmk⟩ := h
  exact ⟨mi, hmi, hmk.symm⟩

/-- For calendar-valid dates, filtering a month by (year, month) equals
filtering by the month bin. -/
theorem ymFilter_eq_monthGroup (daily : List DailyRow) (mi : Nat)
    (hv : ∀ r ∈ daily, r.date.valid) :
    daily.filter (fun r =>
        decide (r.date.year = mi / 12 ∧ r.date.month = mi % 12 + 1)) =
      monthGroup daily mi := by
  unfold monthGroup
  apply List.filter_congr
  intro r hr
  have hvr := hv r hr
  unfold Date.valid at hvr
  unfold monthIndex
  rw [decide_eq_decide]
  omega

/-- C5 (confirmed). For every monthly record of
`data_loader.load_monthly` whose calendar month contains at least one
clean daily row, `total_cases` is the arithmetic mean — sum divided by
count — of the `total_cases` of exactly the daily rows of that month;
absent days contribute nothing. -/
theorem C5_theorem (raw : List RawRow)
    (hv : ∀ r ∈ load_daily raw, r.date.valid)
    (mr : MonthlyRow) (hmr : mr ∈ load_monthly raw)
    (hne : (load_daily raw).filter
      (fun r => decide (r.date.year = mr.year ∧ r.date.month = mr.month))
      ≠ []) :
    mr.total_cases =
      some ((((load_daily raw).filter (fun r =>
            decide (r.date.year = mr.year ∧ r.date.month = mr.month))).map
          (fun r => r.total_cases)).sum /
        (((load_daily raw).filter (fun r =>
            decide (r.date.year = mr.year ∧ r.date.month = mr.month))).length
          : ℚ)) := by
  obtain ⟨mi, hmi, rfl⟩ := mem_load_monthly hmr
  have hy : (mkMonthly (load_daily raw) mi).year = mi / 12 := rfl
  have hm : (mkMonthly (load_daily raw) mi).month = mi % 12 + 1 := rfl
  rw [hy, hm] at hne ⊢
  rw [ymFilter_eq_monthGroup _ _ hv] at hne ⊢
  rw [mkMonthly_total]
  unfold omean
  rw [if_neg (by simp [List.map_eq_nil_iff, hne]), List.length_map]

/-- Raw rows for the two-day January 2020 scenario of the spec. -/
def exJanA : RawRow :=
  { date := some ⟨2020, 1, 5⟩, southern := some 10, northern := some 0,
    central := some 0, east_coast := some 0, borneo := some 0,
    temp_c := some 28, rain_c := none, rh_c := none }

def exJanB : RawRow :=
  { exJanA with
    date := some ⟨2020, 1, 20⟩
    southern := some 20
    temp_c := some 30 }

/-- C5 (witness): two days totalling 10 and 20 in January 2020 yield a
monthly `total_cases` of 15, the mean — not 30, the sum. -/
theorem C5_witness :
    mkMonthly (load_daily [exJanA, exJanB]) (2020 * 12)
        ∈ load_monthly [exJanA, exJanB] ∧
    (mkMonthly (load_daily [exJanA, exJanB]) (2020 * 12)).total_cases
        = some 15 := by
  have hrange : monthRange (load_daily [exJanA, exJanB]) = [2020 * 12] := by
    decide
  have hmem : mkMonthly (load_daily [exJanA, exJanB]) (2020 * 12)
      ∈ load_monthly [exJanA, exJanB] := by
    unfold load_monthly
    rw [hrange]
    exact List.mem_singleton_self _
  refine ⟨hmem, ?_⟩
  rw [C5_theorem [exJanA, exJanB] (by decide) _ hmem (by decide)]
  norm_num [load_daily, sortByDate, insertByDate, mkDaily, presentSum,
    Date.le, exJanA, exJanB, mkMonthly, monthGroup, monthIndex,
    List.filterMap_cons]

/-! ### C7 — total cases is the partial sum of present region cells -/

/-- C7 (confirmed). Every row of the clean daily table has
`total_cases` equal to the sum of its present (non-missing) region
cells over the five region columns; missing cells are simply excluded,
and a row with missing cells still carries a numeric partial sum. -/
theorem C7_theorem (raw : List RawRow) (r : DailyRow)
    (h : r ∈ load_daily raw) :
    r.total_cases =
      presentSum [r.southern, r.northern, r.central, r.east_coast, r.borneo] :=
  total_cases_eq h

/-- A raw row whose borneo cell is missing. -/
def exMissB : RawRow :=
  { date := some ⟨2021, 2, 3⟩, southern := some 1, northern := some 2,
    central := some 3, east_coast := some 4, borneo := none,
    temp_c := none, rain_c := none, rh_c := none }

/-- C7 (witness): with borneo missing, the total is the partial sum
1 + 2 + 3 + 4 = 10 over the four present regions, not an error. -/
theorem C7_witness :
    mkDaily ⟨2021, 2, 3⟩ exMissB ∈ load_daily [exMissB] ∧
    (mkDaily ⟨2021, 2, 3⟩ exMissB).borneo = none ∧
    (mkDaily ⟨2021, 2, 3⟩ exMissB).total_cases = 10 := by
  have hl : load_daily [exMissB] = [mkDaily ⟨2021, 2, 3⟩ exMissB] := rfl
  have hmem : mkDaily ⟨2021, 2, 3⟩ exMissB ∈ load_daily [exMissB] := by
    rw [hl]
    exact List.mem_singleton_self _
  refine ⟨hmem, rfl, ?_⟩
  rw [C7_theorem [exMissB] _ hmem]
  norm_num [presentSum, exMissB, mkDaily, List.filterMap_cons]

/-! ### C9 — idempotence of normalization -/

/-- Reinterpreting a clean daily row as raw input: the parsed date is
fed back as an (already parsed) date cell, every other column kept; the
derived `total_cases` column is recomputed by the pipeline. -/
def reinterpret (r : DailyRow) : RawRow :=
  { date := some r.date
    southern := r.southern
    northern := r.northern
    central := r.central
    east_coast := r.east_coast
    borneo := r.borneo
    temp_c := r.temp_c
    rain_c := r.rain_c
    rh_c := r.rh_c }

theorem filterMap_always_some {α β : Type} (h : α → Option β) (k : α → β)
    (hk : ∀ x, h x = some (k x)) (l : List α) : l.filterMap h = l.map k := by
  induction l with
  | nil => rfl
  | cons a as ih =>
      rw [List.filterMap_cons, hk a, ih]
      rfl

/-- C9 (confirmed). Re-feeding the clean daily table through the daily
pipeline yields the same table: no further rows are dropped (every date
is already parsed), the order is unchanged (the table is already
date-sorted), and every recomputed `total_cases` agrees with the one
already present. -/
theorem C9_theorem (raw : List RawRow) :
    load_daily ((load_daily raw).map reinterpret) = load_daily raw := by
  show sortByDate (((load_daily raw).map reinterpret).filterMap
      (fun r => r.date.map (fun d => mkDaily d r))) = load_daily raw
  rw [List.filterMap_map]
  rw [filterMap_always_some
    ((fun r => Option.map (fun d => mkDaily d r) r.date) ∘ reinterpret)
    (fun r => mkDaily r.date (reinterpret r)) (fun x => rfl)]
  have hid : ∀ a ∈ load_daily raw,
      (fun r => mkDaily r.date (reinterpret r)) a = id a := by
    intro a ha
    obtain ⟨r0, -, d, -, rfl⟩ := mem_load_daily ha
    rfl
  rw [List.map_congr_left hid, List.map_id]
  exact sortByDate_eq_of_pairwise (pairwise_sortByDate _)

/-! ### C2 — monthly records and gap months -/

theorem omean_eq_none (l : List ℚ) : omean l = none ↔ l = [] := by
  unfold omean
  cases l <;> simp

theorem monthRange_pairwise (daily : List DailyRow) :
    (monthRange daily).Pairwise (· < ·) := by
  unfold monthRange
  cases daily.map (fun r => monthIndex r.date) with
  | nil => exact List.Pairwise.nil
  | cons m ms =>
      exact List.Pairwise.map _ (fun a b h => by omega)
        (List.pairwise_lt_range _)

theorem load_monthly_pairwise (raw : List RawRow) :
    (load_monthly raw).Pairwise (fun a b =>
      a.year * 12 + (a.month - 1) < b.year * 12 + (b.month - 1)) := by
  unfold load_monthly
  exact List.Pairwise.map _
    (fun a b h => by rw [mkMonthly_label, mkMonthly_label]; exact h)
    (monthRange_pairwise _)

/-- C2 (amended). The monthly table has strictly increasing month
labels (hence at most one record per (year, month)); every calendar
month containing a daily observation appears, with a defined (non-NaN)
`total_cases`; but a record has a missing `total_cases` exactly when
its month has no contributing daily observation — and such gap months
inside the observed range DO appear in the table, because
`resample("M")` generates every month bin between the earliest and
latest date. -/
theorem C2_theorem (raw : List RawRow) :
    (load_monthly raw).Pairwise (fun a b =>
        a.year * 12 + (a.month - 1) < b.year * 12 + (b.month - 1)) ∧
    (∀ r ∈ load_daily raw, ∃ mr ∈ load_monthly raw,
        mr.year * 12 + (mr.month - 1) = monthIndex r.date ∧
        mr.total_cases.isSome) ∧
    (∀ mr ∈ load_monthly raw,
        (mr.total_cases = none ↔
          monthGroup (load_daily raw) (mr.year * 12 + (mr.month - 1)) = [])) := by
  refine ⟨load_monthly_pairwise raw, ?_, ?_⟩
  · intro r hr
    refine ⟨mkMonthly (load_daily raw) (monthIndex r.date), ?_, ?_, ?_⟩
    · unfold load_monthly
      exact List.mem_map_of_mem _ (monthIndex_mem_monthRange hr)
    · exact mkMonthly_label _ _
    · have hg : r ∈ monthGroup (load_daily raw) (monthIndex r.date) :=
        List.mem_filter.mpr ⟨hr, by simp⟩
      have hne : monthGroup (load_daily raw) (monthIndex r.date) ≠ [] := by
        intro hnil
        rw [hnil] at hg
        cases hg
      rw [mkMonthly_total]
      unfold omean
      rw [if_neg (by simp [List.map_eq_nil_iff, hne])]
      rfl
  · intro mr hmr
    obtain ⟨mi, hmi, rfl⟩ := mem_load_monthly hmr
    rw [mkMonthly_label, mkMonthly_total, omean_eq_none, List.map_eq_nil_iff]

/-- A raw row for 15 Jan 2020 with all regions present. -/
def exGapJan : RawRow :=
  { date := some ⟨2020, 1, 15⟩, southern := some 1, northern := some 2,
    central := some 3, east_coast := some 4, borneo := some 5,
    temp_c := none, rain_c := none, rh_c := none }

/-- The same counts dated 15 Mar 2020, leaving February empty. -/
def exGapMar : RawRow := { exGapJan with date := some ⟨2020, 3, 15⟩ }

/-- C2 (counterexample). The claim says months with zero contributing
observations do not appear. With observations only on 15 Jan and
15 Mar 2020, the monthly table nevertheless contains a record for
February 2020 (with NaN aggregates), though no daily row falls in
February: `resample("M")` gap-fills the observed range. -/
theorem C2_counterexample :
    ((load_monthly [exGapJan, exGapMar])[1]?).map
        (fun m => (m.year, m.month, m.total_cases)) = some (2020, 2, none) ∧
    (load_daily [exGapJan, exGapMar]).filter
        (fun r => decide (r.date.year = 2020 ∧ r.date.month = 2)) = [] := by
  exact ⟨by decide, by decide⟩

/-- C2 (witness): at the January/March input, January appears with a
defined monthly total. -/
theorem C2_witness :
    ∃ mr ∈ load_monthly [exGapJan, exGapMar],
      mr.year * 12 + (mr.month - 1) = monthIndex ⟨2020, 1, 15⟩ ∧
      mr.total_cases.isSome := by
  have hld : load_daily [exGapJan, exGapMar] =
      [mkDaily ⟨2020, 1, 15⟩ exGapJan, mkDaily ⟨2020, 3, 15⟩ exGapMar] := rfl
  have hmem : mkDaily ⟨2020, 1, 15⟩ exGapJan ∈ load_daily [exGapJan, exGapMar] := by
    rw [hld]
    exact List.mem_cons_self _ _
  exact (C2_theorem [exGapJan, exGapMar]).2.1 _ hmem

/-! ### C10 — the two monthly total pipelines -/

theorem regionalMkMonthly_total (daily : List DailyRow) (mi : Nat) :
    (regionalMkMonthly daily mi).total_cases =
      some (osum [colMean (monthGroup daily mi) (fun r => r.southern),
        colMean (monthGroup daily mi) (fun r => r.northern),
        colMean (monthGroup daily mi) (fun r => r.central),
        colMean (monthGroup daily mi) (fun r => r.east_coast),
        colMean (monthGroup daily mi) (fun r => r.borneo)]) := rfl

theorem mem_regional_load_monthly {raw : List RawRow} {mr : MonthlyRow}
    (h : mr ∈ regional_load_monthly raw) :
    ∃ mi ∈ monthRange (load_daily raw),
      mr = regionalMkMonthly (load_daily raw) mi := by
  unfold regional_load_monthly at h
  rw [List.mem_map] at h
  obtain ⟨mi, hmi, hmk⟩ := h
  exact ⟨mi, hmi, hmk.symm⟩

theorem load_daily_regions_present {raw : List RawRow}
    (hp : ∀ r0 ∈ raw, r0.southern.isSome ∧ r0.northern.isSome ∧
      r0.central.isSome ∧ r0.east_coast.isSome ∧ r0.borneo.isSome) :
    ∀ r ∈ load_daily raw, r.southern.isSome ∧ r.northern.isSome ∧
      r.central.isSome ∧ r.east_coast.isSome ∧ r.borneo.isSome := by
  intro r hr
  obtain ⟨r0, hr0, d, -, rfl⟩ := mem_load_daily hr
  simpa [mkDaily] using hp r0 hr0

theorem length_filterMap_of_isSome {l : List DailyRow}
    {f : DailyRow → Option ℚ} (h : ∀ x ∈ l, (f x).isSome) :
    (l.filterMap f).length = l.length := by
  induction l with
  | nil => rfl
  | cons a as ih =>
      rw [List.filterMap_cons]
      cases hfa : f a with
      | none =>
          exact absurd (h a (List.mem_cons_self a as)) (by simp [hfa])
      | some b =>
          simp only [List.length_cons]
          rw [ih (fun x hx => h x (List.mem_cons_of_mem a hx))]

theorem sum_filterMap_eq (l : List DailyRow) (f : DailyRow → Option ℚ) :
    (l.filterMap f).sum = (l.map (fun x => (f x).getD 0)).sum := by
  induction l with
  | nil => rfl
  | cons a as ih =>
      rw [List.filterMap_cons]
      cases hfa : f a <;> simp [hfa, ih]

theorem presentSum_eq_getD (s n c e b : Option ℚ) :
    presentSum [s, n, c, e, b] =
      s.getD 0 + n.getD 0 + c.getD 0 + e.getD 0 + b.getD 0 := by
  cases s <;> cases n <;> cases c <;> cases e <;> cases b <;>
    simp [presentSum] <;> ring

theorem sum_map_add5 (l : List DailyRow) (f1 f2 f3 f4 f5 : DailyRow → ℚ) :
    (l.map (fun x => f1 x + f2 x + f3 x + f4 x + f5 x)).sum =
      (l.map f1).sum + (l.map f2).sum + (l.map f3).sum +
        (l.map f4).sum + (l.map f5).sum := by
  induction l with
  | nil => simp
  | cons a as ih => simp [ih]; ring

/-- Over a nonempty month group whose region cells are all present, the
sum of the five per-region means equals the mean of the per-day totals. -/
theorem monthly_totals_agree (g : List DailyRow) (hg : g ≠ [])
    (hcells : ∀ r ∈ g, r.southern.isSome ∧ r.northern.isSome ∧
      r.central.isSome ∧ r.east_coast.isSome ∧ r.borneo.isSome)
    (htot : ∀ r ∈ g, r.total_cases =
      presentSum [r.southern, r.northern, r.central, r.east_coast, r.borneo]) :
    some (osum [colMean g (fun r => r.southern),
        colMean g (fun r => r.northern), colMean g (fun r => r.central),
        colMean g (fun r => r.east_coast), colMean g (fun r => r.borneo)]) =
      omean (g.map (fun r => r.total_cases)) := by
  have hmean : ∀ f : DailyRow → Option ℚ, (∀ r ∈ g, (f r).isSome) →
      colMean g f =
        some ((g.map (fun x => (f x).getD 0)).sum / (g.length : ℚ)) := by
    intro f hf
    have hfm : g.filterMap f ≠ [] := by
      intro hnil
      have hlen := length_filterMap_of_isSome hf
      rw [hnil] at hlen
      exact hg (List.length_eq_zero.mp hlen.symm)
    unfold colMean omean
    rw [if_neg (by simp [hfm]), length_filterMap_of_isSome hf,
      sum_filterMap_eq]
  rw [hmean (fun r => r.southern) (fun r hr => (hcells r hr).1),
    hmean (fun r => r.northern) (fun r hr => (hcells r hr).2.1),
    hmean (fun r => r.central) (fun r hr => (hcells r hr).2.2.1),
    hmean (fun r => r.east_coast) (fun r hr => (hcells r hr).2.2.2.1),
    hmean (fun r => r.borneo) (fun r hr => (hcells r hr).2.2.2.2)]
  have h1 : g.map (fun r => r.total_cases) =
      g.map (fun r => r.southern.getD 0 + r.northern.getD 0 +
        r.central.getD 0 + r.east_coast.getD 0 + r.borneo.getD 0) :=
    List.map_congr_left (fun r hr => by
      rw [htot r hr, presentSum_eq_getD])
  unfold omean
  rw [if_neg (by simp [List.map_eq_nil_iff, hg]), h1, sum_map_add5,
    List.length_map]
  unfold osum
  simp only [List.filterMap_cons, List.filterMap_nil, id]
  rw [List.sum_cons, List.sum_cons, List.sum_cons, List.sum_cons,
    List.sum_cons, List.sum_nil]
  congr 1
  ring

/-- C10 (amended). When every raw row has all five region cells
present, the two monthly pipelines agree month for month on every month
that has at least one contributing daily observation (where
`data_loader`'s total is defined). They still differ on gap months
inside the observed range: there `data_loader.load_monthly` carries NaN
while `regional_comparison.load_monthly` sums five NaN means to 0. -/
theorem C10_theorem (raw : List RawRow)
    (hp : ∀ r0 ∈ raw, r0.southern.isSome ∧ r0.northern.isSome ∧
      r0.central.isSome ∧ r0.east_coast.isSome ∧ r0.borneo.isSome) :
    ∀ mr ∈ regional_load_monthly raw, ∀ mr2 ∈ load_monthly raw,
      mr.year = mr2.year → mr.month = mr2.month → mr2.total_cases.isSome →
      mr.total_cases = mr2.total_cases := by
  intro mr hmr mr2 hmr2 hy hm hsome
  obtain ⟨mi, hmi, rfl⟩ := mem_regional_load_monthly hmr
  obtain ⟨mi2, hmi2, rfl⟩ := mem_load_monthly hmr2
  have h1 : mi / 12 = mi2 / 12 := hy
  have h2 : mi % 12 + 1 = mi2 % 12 + 1 := hm
  have hmieq : mi = mi2 := by omega
  subst hmieq
  have hg : monthGroup (load_daily raw) mi ≠ [] := by
    intro hnil
    rw [mkMonthly_total, hnil] at hsome
    simp [omean] at hsome
  rw [regionalMkMonthly_total, mkMonthly_total]
  exact monthly_totals_agree (monthGroup (load_daily raw) mi) hg
    (fun r hr =>
      load_daily_regions_present hp r (List.mem_filter.mp hr).1)
    (fun r hr => total_cases_eq (List.mem_filter.mp hr).1)

/-- C10 (counterexample). With daily observations only in January and
March 2020 (all region cells numeric), the February record of
`regional_comparison.load_monthly` carries `total_cases` 0 (sum of five
NaN means under `numeric_only`), while `data_loader.load_monthly`
carries NaN: the two pipelines diverge on a month with zero
contributing observations even though no cell is missing. -/
theorem C10_counterexample :
    ((regional_load_monthly [exGapJan, exGapMar])[1]?).map
        (fun m => (m.year, m.month, m.total_cases)) = some (2020, 2, some 0) ∧
    ((load_monthly [exGapJan, exGapMar])[1]?).map
        (fun m => (m.year, m.month, m.total_cases)) = some (2020, 2, none) := by
  exact ⟨by decide, by decide⟩

/-- A second January 2020 row, for the witness month. -/
def exJanC : RawRow := { exGapJan with date := some ⟨2020, 1, 20⟩ }

/-- C10 (witness): on a January with two fully-populated rows, the two
monthly totals coincide. -/
theorem C10_witness :
    (regionalMkMonthly (load_daily [exGapJan, exJanC]) (2020 * 12)).total_cases
      = (mkMonthly (load_daily [exGapJan, exJanC]) (2020 * 12)).total_cases := by
  have hrange : monthRange (load_daily [exGapJan, exJanC]) = [2020 * 12] := by
    decide
  have hm1 : regionalMkMonthly (load_daily [exGapJan, exJanC]) (2020 * 12)
      ∈ regional_load_monthly [exGapJan, exJanC] := by
    unfold regional_load_monthly
    rw [hrange]
    exact List.mem_singleton_self _
  have hm2 : mkMonthly (load_daily [exGapJan, exJanC]) (2020 * 12)
      ∈ load_monthly [exGapJan, exJanC] := by
    unfold load_monthly
    rw [hrange]
    exact List.mem_singleton_self _
  exact C10_theorem [exGapJan, exJanC] (by decide) _ hm1 _ hm2 rfl rfl
    (by decide)

end HFMD
